import Mathlib

/-!
A verification development for the copy-trading engine in
`src/commands/copy.rs`.  Money amounts (`rust_decimal::Decimal`) are
modelled as exact rationals (`ℚ`), matching the specification's "full
precision preserved through multiplication and division".  RFC-3339
movement timestamps are parsed by the external `chrono` library in the
source; the embedding carries the parse result directly as `Option Int`
(epoch seconds, `none` for an unparseable string).
-/

namespace Polystation

/-! ## Slug utilities (`normalize_market_slug`, `is_fast_market_with_fee`) -/

/-- Split a character list at its *last* `'-'`:
`rust`'s `str::rsplit_once('-')`, on the decoded character list.
Returns `some (before, after)` with the dash removed, `none` when no
dash occurs.  (The suffix-length check in the caller is a byte length
in Rust, but it is conjoined with an all-ASCII-digit check, under which
byte length and character count coincide.) -/
def rsplitOnceDash : List Char → Option (List Char × List Char)
  | [] => none
  | c :: rest =>
    match rsplitOnceDash rest with
    | some (p, sfx) => some (c :: p, sfx)
    | none => if c = '-' then some ([], rest) else none

/-- `normalize_market_slug` from the source: strip the final dash-segment
when it is at least 8 ASCII digits, otherwise return the slug unchanged. -/
def normalize_market_slug (slug : String) : String :=
  match rsplitOnceDash slug.data with
  | none => slug
  | some (p, sfx) =>
    if 8 ≤ sfx.length ∧ sfx.all Char.isDigit then String.mk p else slug

/-- Whether the final dash-segment of `s` is at least 8 ASCII digits,
i.e. whether `normalize_market_slug` strips something from `s`. -/
def hasEpochSuffix (s : String) : Bool :=
  match rsplitOnceDash s.data with
  | none => false
  | some (_, sfx) => decide (8 ≤ sfx.length ∧ sfx.all Char.isDigit)

/-- `pat` occurs as a contiguous run at the head of `l`. -/
def startsWithChars : List Char → List Char → Bool
  | [], _ => true
  | _ :: _, [] => false
  | p :: ps, c :: cs => p = c && startsWithChars ps cs

/-- `pat` occurs as a contiguous run anywhere in `l`
(Rust `str::contains` on ASCII patterns). -/
def hasInfixChars (pat : List Char) : List Char → Bool
  | [] => startsWithChars pat []
  | c :: cs => startsWithChars pat (c :: cs) || hasInfixChars pat cs

/-- Rust `String::contains` restricted to the ASCII patterns used by the
fee filter. -/
def strContainsSub (s pat : String) : Bool :=
  hasInfixChars pat.data s.data

/-! ## Fee filter (`trading_fee_impact_for_movement` and the
monitor-loop rejection branch) -/

def FAST_MARKET_FEE_BPS : Nat := 70
def BPS_DENOMINATOR : Nat := 10000

/-- `is_fast_market_with_fee` from the source. -/
def is_fast_market_with_fee (slug : String) : Bool :=
  let normalized := normalize_market_slug slug
  strContainsSub normalized "-updown-5m" || strContainsSub normalized "-updown-15m"

structure TradingFeeImpact where
  fee_bps : Nat
  entry_fee_usd : ℚ
  round_trip_fee_usd : ℚ
  max_gross_profit_usd : ℚ
  max_net_profit_usd : ℚ
  deriving DecidableEq, Repr

/-- `trading_fee_impact_for_movement` from the source.
`Decimal::from_i128_with_scale(100, 3)` is the literal `0.100`. -/
def trading_fee_impact_for_movement (market : String) (copied_value : ℚ) :
    Option TradingFeeImpact :=
  if ¬ (is_fast_market_with_fee market) ∨ copied_value ≤ 0 then
    none
  else
    let fee_rate : ℚ := (FAST_MARKET_FEE_BPS : ℚ) / (BPS_DENOMINATOR : ℚ)
    let entry_fee_usd := copied_value * fee_rate
    let round_trip_fee_usd := entry_fee_usd * 2
    let max_gross_profit_usd := copied_value * (1 - 100 / 1000)
    let max_net_profit_usd := max_gross_profit_usd - round_trip_fee_usd
    some {
      fee_bps := FAST_MARKET_FEE_BPS
      entry_fee_usd := entry_fee_usd
      round_trip_fee_usd := round_trip_fee_usd
      max_gross_profit_usd := max_gross_profit_usd
      max_net_profit_usd := max_net_profit_usd
    }

/-- The rejection branch shared by `monitor_loop` and `simulation_step`:
a copy is discarded by fees exactly when the fee impact is `Some` and
`max_net_profit_usd <= 0`. -/
def fee_filter_rejects (market : String) (copied_value : ℚ) : Bool :=
  match trading_fee_impact_for_movement market copied_value with
  | some impact => decide (impact.max_net_profit_usd ≤ 0)
  | none => false

/-! ## Data model (`CopyConfig`, `MovementRecord`, `CopyState`,
`PlanResult`, `ConfigureArgs`) -/

inductive RiskLevel where
  | conservative
  | balanced
  | aggressive
  deriving DecidableEq, Repr

structure CopyConfig where
  leader : String
  allocated_funds : ℚ
  max_trade_pct : ℚ
  max_total_exposure_pct : ℚ
  min_copy_usd : ℚ
  poll_interval_secs : Nat
  poll_interval_ms : Nat
  risk_level : RiskLevel
  execute_orders : Bool
  realtime_mode : Bool
  simulation_mode : Bool
  deriving DecidableEq, Repr

/-- One durable movement row.  `timestamp` is an RFC-3339 string in the
source, parsed to epoch seconds by `chrono` (an external library) inside
`movement_timestamp_epoch_seconds`; the embedding carries the parse
result (`none` = unparseable). -/
structure MovementRecord where
  movement_id : String
  market : String
  timestamp : Option Int
  leader_value : ℚ
  leader_price : ℚ
  copied_value : ℚ
  simulated_copy_price : ℚ
  quantity : ℚ
  copy_side : String
  outcome : String
  diff_pct : ℚ
  estimated_total_fee_usd : ℚ
  settled : Bool
  pnl : ℚ
  deriving DecidableEq, Repr

structure CopyState where
  movements : List MovementRecord
  deriving DecidableEq, Repr

structure PlanResult where
  proportional_size : ℚ
  capped_size : ℚ
  available_funds : ℚ
  reason : String
  deriving DecidableEq, Repr

structure ConfigureArgs where
  leader : String
  allocated_funds : ℚ
  max_trade_pct : ℚ
  max_total_exposure_pct : ℚ
  min_copy_usd : ℚ
  poll_interval_secs : Nat
  poll_interval_ms : Option Nat
  risk_level : RiskLevel
  execute_orders : Bool
  realtime_mode : Bool
  simulation_mode : Bool
  deriving DecidableEq, Repr

/-- `ClosedPosition` rows from the upstream `closed_positions` client. -/
structure ClosedPosition where
  slug : String
  timestamp : Int
  realized_pnl : ℚ
  total_bought : ℚ
  deriving DecidableEq, Repr

/-! ## Poll-interval handling and `validate_config` -/

def min_poll_ms (realtime_mode simulation_mode : Bool) : Nat :=
  if realtime_mode || simulation_mode then 50 else 500

def normalize_poll_ms (poll_ms : Nat) (realtime_mode simulation_mode : Bool) : Nat :=
  max poll_ms (min_poll_ms realtime_mode simulation_mode)

/-- `u64::saturating_mul(·, 1000)`. -/
def u64_saturating_mul_1000 (n : Nat) : Nat :=
  min (n * 1000) (2 ^ 64 - 1)

/-- `validate_config` from the source, with the two-element percentage
loop unrolled (same check, same order, same messages). -/
def validate_config (cfg : ConfigureArgs) : Except String Unit :=
  if cfg.allocated_funds ≤ 0 then
    .error "allocated-funds must be > 0"
  else if cfg.max_trade_pct ≤ 0 ∨ 100 < cfg.max_trade_pct then
    .error "max-trade-pct must be between 0 and 100"
  else if cfg.max_total_exposure_pct ≤ 0 ∨ 100 < cfg.max_total_exposure_pct then
    .error "max-total-exposure-pct must be between 0 and 100"
  else if cfg.min_copy_usd < 0 then
    .error "min-copy-usd cannot be negative"
  else if cfg.realtime_mode ∧ cfg.simulation_mode then
    .error "realtime-mode and simulation-mode are mutually exclusive"
  else
    match cfg.poll_interval_ms with
    | some ms =>
      if ms < min_poll_ms cfg.realtime_mode cfg.simulation_mode then
        .error "poll-interval-ms too low for selected mode"
      else .ok ()
    | none => .ok ()

/-- The `CopyConfig` record built by the `CopyCommand::Configure` arm of
`execute` (the `let c = CopyConfig { .. }` in the source). -/
def built_config (cfg : ConfigureArgs) : CopyConfig :=
  {
    leader := cfg.leader
    allocated_funds := cfg.allocated_funds
    max_trade_pct := cfg.max_trade_pct
    max_total_exposure_pct := cfg.max_total_exposure_pct
    min_copy_usd := cfg.min_copy_usd
    poll_interval_secs := cfg.poll_interval_secs
    poll_interval_ms := normalize_poll_ms
      (cfg.poll_interval_ms.getD (u64_saturating_mul_1000 cfg.poll_interval_secs))
      cfg.realtime_mode cfg.simulation_mode
    risk_level := cfg.risk_level
    execute_orders := cfg.execute_orders
    realtime_mode := cfg.realtime_mode
    simulation_mode := cfg.simulation_mode
  }

/-- The `CopyCommand::Configure` arm of `execute`: validate, then build
the stored `CopyConfig` (the subsequent `save_config`/`init_db` file
writes do not change the value). -/
def configure_config (cfg : ConfigureArgs) : Except String CopyConfig := do
  let _ ← validate_config cfg
  .ok (built_config cfg)

/-! ## Planner (`compute_plan`) -/

def max_trade_of (cfg : CopyConfig) : ℚ :=
  cfg.allocated_funds * (cfg.max_trade_pct / 100)

def max_total_exposure_of (cfg : CopyConfig) : ℚ :=
  cfg.allocated_funds * (cfg.max_total_exposure_pct / 100)

def used_exposure_of (state : CopyState) : ℚ :=
  ((state.movements.filter (fun m => !m.settled)).map (fun m => m.copied_value)).sum

def available_exposure_of (cfg : CopyConfig) (state : CopyState) : ℚ :=
  max (max_total_exposure_of cfg - used_exposure_of state) 0

/-- `compute_plan` from the source. -/
def compute_plan (cfg : CopyConfig) (state : CopyState)
    (leader_positions_value leader_movement_value : ℚ) :
    Except String PlanResult :=
  if leader_positions_value ≤ 0 then
    .error "leader-positions-value must be > 0"
  else
    let ratio := cfg.allocated_funds / leader_positions_value
    let proportional := leader_movement_value * ratio
    let max_trade := max_trade_of cfg
    let available_exposure := available_exposure_of cfg state
    let capped := min (min proportional max_trade) available_exposure
    let reason :=
      if capped < cfg.min_copy_usd then "below minimum copy threshold"
      else if available_exposure ≤ 0 then "no exposure available"
      else if max_trade < proportional then "capped by max_trade_pct"
      else if available_exposure < proportional then "capped by max_total_exposure_pct"
      else "ok"
    .ok {
      proportional_size := proportional
      capped_size := if reason = "below minimum copy threshold" then 0 else capped
      available_funds := available_exposure
      reason := reason
    }

/-! ## Liquidity probe (`estimate_simulated_copy_price_from_book`,
buy branch).  The order book itself is fetched from the external CLOB
client; the embedding takes the ask levels directly. -/

structure BookLevel where
  price : ℚ
  size : ℚ
  deriving DecidableEq, Repr

/-- The `for ask in &book.asks` loop of the buy branch, with its running
`(remaining_usdc, filled_usdc, filled_shares)` accumulators. -/
def buyWalk : List BookLevel → ℚ → ℚ → ℚ → ℚ × ℚ × ℚ
  | [], remaining_usdc, filled_usdc, filled_shares =>
    (remaining_usdc, filled_usdc, filled_shares)
  | ask :: rest, remaining_usdc, filled_usdc, filled_shares =>
    if remaining_usdc ≤ 0 then (remaining_usdc, filled_usdc, filled_shares)
    else
      let level_notional := ask.size * ask.price
      let take_notional :=
        if remaining_usdc ≤ level_notional then remaining_usdc else level_notional
      let filled_shares' :=
        if 0 < ask.price then filled_shares + take_notional / ask.price
        else filled_shares
      buyWalk rest (remaining_usdc - take_notional) (filled_usdc + take_notional)
        filled_shares'

/-- Buy branch of `estimate_simulated_copy_price_from_book`. -/
def estimate_simulated_copy_price_buy (asks : List BookLevel)
    (copied_value_usd : ℚ) : Option ℚ :=
  let (remaining_usdc, filled_usdc, filled_shares) := buyWalk asks copied_value_usd 0 0
  if 0 < remaining_usdc ∨ filled_shares ≤ 0 then none
  else some (filled_usdc / filled_shares)

def sumNotional (asks : List BookLevel) : ℚ :=
  (asks.map (fun l => l.size * l.price)).sum

/-! ## Settlement matcher (`settle_open_movements_from_closed_positions`) -/

/-- The per-slug FIFO queues (`HashMap<String, VecDeque<(i64, Decimal)>>`),
as an association list with unique keys. -/
abbrev SlugQueues := List (String × List (Int × ℚ))

def getQueue (qs : SlugQueues) (k : String) : Option (List (Int × ℚ)) :=
  match qs with
  | [] => none
  | (k', q) :: rest => if k' = k then some q else getQueue rest k

def setQueue (qs : SlugQueues) (k : String) (q : List (Int × ℚ)) : SlugQueues :=
  match qs with
  | [] => []
  | (k', q') :: rest =>
    if k' = k then (k', q) :: rest else (k', q') :: setQueue rest k q

/-- `entry(k).or_default().push_back(e)`. -/
def pushEntry (qs : SlugQueues) (k : String) (e : Int × ℚ) : SlugQueues :=
  match qs with
  | [] => [(k, [e])]
  | (k', q) :: rest =>
    if k' = k then (k', q ++ [e]) :: rest else (k', q) :: pushEntry rest k e

/-- The preprocessing loop: sort closed positions ascending by timestamp
(Rust `sort_by_key` is stable; `List.insertionSort` with `≤` on the key
is the same stable sort), then enqueue each `roi = realized_pnl /
total_bought` under the raw slug and, when different, the normalized
slug, skipping positions with `total_bought ≤ 0`. -/
def enqueue_closed (qs : SlugQueues) (c : ClosedPosition) : SlugQueues :=
  if c.total_bought ≤ 0 then qs
  else
    let roi := c.realized_pnl / c.total_bought
    let normalized := normalize_market_slug c.slug
    let qs1 := pushEntry qs c.slug (c.timestamp, roi)
    if normalized ≠ c.slug then pushEntry qs1 normalized (c.timestamp, roi) else qs1

def build_slug_queues (closed_positions : List ClosedPosition) : SlugQueues :=
  (closed_positions.insertionSort
      (fun a b => a.timestamp ≤ b.timestamp)).foldl enqueue_closed []

/-- `movement_timestamp_epoch_seconds`: the source parses the RFC-3339
string with `chrono`; the embedding carries the parse result. -/
def movement_timestamp_epoch_seconds (ts : Option Int) : Option Int := ts

/-- The `pop_eligible_roi` closure: drop front entries with
`0 < ts ∧ ts < movement_ts`, then pop the front entry (if any).
Returns the popped `(timestamp, roi)` pair and the remaining queue
(the source keeps only the `roi`). -/
def pop_eligible_roi (movement_ts : Int) :
    List (Int × ℚ) → Option (Int × ℚ) × List (Int × ℚ)
  | [] => (none, [])
  | (ts, roi) :: rest =>
    if 0 < ts ∧ ts < movement_ts then pop_eligible_roi movement_ts rest
    else (some (ts, roi), rest)

/-- `by_slug.get_mut(k).and_then(pop_eligible_roi)`: absent key leaves
the queues unchanged; a present key has its queue mutated even when the
pop comes back empty. -/
def pop_from_key (qs : SlugQueues) (k : String) (movement_ts : Int) :
    Option (Int × ℚ) × SlugQueues :=
  match getQueue qs k with
  | none => (none, qs)
  | some q =>
    let (r, q') := pop_eligible_roi movement_ts q
    (r, setQueue qs k q')

/-- One iteration of the matching loop for a single movement: skip
settled or unparseable-timestamp movements; otherwise try the raw-slug
queue first and then the normalized-slug queue; on a hit set
`pnl = copied_value * roi` and `settled = true`.  The `Bool` reports
whether the movement was settled in this run. -/
def try_settle_movement (qs : SlugQueues) (m : MovementRecord) :
    SlugQueues × MovementRecord × Bool :=
  if m.settled then (qs, m, false)
  else
    match movement_timestamp_epoch_seconds m.timestamp with
    | none => (qs, m, false)
    | some movement_ts =>
      let normalized_market := normalize_market_slug m.market
      let (r1, qs1) := pop_from_key qs m.market movement_ts
      match r1 with
      | some (_, roi) =>
        (qs1, { m with pnl := m.copied_value * roi, settled := true }, true)
      | none =>
        let (r2, qs2) := pop_from_key qs1 normalized_market movement_ts
        match r2 with
        | some (_, roi) =>
          (qs2, { m with pnl := m.copied_value * roi, settled := true }, true)
        | none => (qs2, m, false)

/-- The matching loop over `state.movements` in stable order, returning
the updated movement list and the settled movements in iteration order. -/
def run_settle (qs : SlugQueues) :
    List MovementRecord → List MovementRecord × List MovementRecord
  | [] => ([], [])
  | m :: rest =>
    let (qs', m', settled_now) := try_settle_movement qs m
    let (ms, out) := run_settle qs' rest
    (m' :: ms, if settled_now then m' :: out else out)

/-- `settle_open_movements_from_closed_positions` from the source:
returns the mutated state together with the list of movements settled
in this run. -/
def settle_open_movements_from_closed_positions (state : CopyState)
    (closed_positions : List ClosedPosition) :
    CopyState × List MovementRecord :=
  let qs := build_slug_queues closed_positions
  let (ms, settled) := run_settle qs state.movements
  ({ movements := ms }, settled)

/-! ## Persistent store (`DbRow`, `next_db_id`, `append_db_movement`)

`read_db_rows` parses the per-mode JSONL file and sorts rows ascending
by `id`; `append_db_movement` then operates on that in-memory row list
and rewrites the file.  The embedding works on the row list; decimal
fields are serialized as exact strings in the source (the spec's
round-trip property), so they are carried here as the exact values. -/

structure DbRow where
  /-- The row id is an `i64` in the source (and in the JSONL rows it is
  parsed from), so its value always lies in `[-2^63, 2^63 - 1]`;
  arithmetic on it wraps at that width (see `i64_wrap`). -/
  id : Int
  movement_id : String
  market : String
  timestamp : Option Int
  leader_value : ℚ
  leader_price : ℚ
  copied_value : ℚ
  simulated_copy_price : ℚ
  quantity : ℚ
  copy_side : String
  outcome : String
  diff_pct : ℚ
  estimated_total_fee_usd : ℚ
  settled : Bool
  pnl : ℚ
  deriving DecidableEq, Repr

/-- Two's-complement wrap-around at 64 bits: the value of an `i64`
computation.  Rust release builds wrap (`i64::MAX + 1 = i64::MIN`);
debug builds panic on the same overflow, so in neither build does the
addition produce a value above `i64::MAX`. -/
def i64_wrap (n : Int) : Int :=
  (n + 2 ^ 63) % 2 ^ 64 - 2 ^ 63

/-- `next_db_id`: `rows.last().map_or(1, |r| r.id + 1)`, the `+ 1`
performed on `i64` (wrapping at the type's width). -/
def next_db_id (rows : List DbRow) : Int :=
  match rows.getLast? with
  | none => 1
  | some r => i64_wrap (r.id + 1)

/-- The `DbRow { .. }` literal pushed by `append_db_movement`. -/
def db_row_of_movement (id : Int) (m : MovementRecord) : DbRow :=
  {
    id := id
    movement_id := m.movement_id
    market := m.market
    timestamp := m.timestamp
    leader_value := m.leader_value
    leader_price := m.leader_price
    copied_value := m.copied_value
    simulated_copy_price := m.simulated_copy_price
    quantity := m.quantity
    copy_side := m.copy_side
    outcome := m.outcome
    diff_pct := m.diff_pct
    estimated_total_fee_usd := m.estimated_total_fee_usd
    settled := m.settled
    pnl := m.pnl
  }

/-- `append_db_movement` on the row list read from the per-mode log:
no-op when a row with the same `movement_id` exists, otherwise push one
new row stamped with `next_db_id`. -/
def append_db_movement (rows : List DbRow) (m : MovementRecord) : List DbRow :=
  if rows.any (fun r => r.movement_id == m.movement_id) then rows
  else rows ++ [db_row_of_movement (next_db_id rows) m]

/-! ## Concrete fixtures for the literal spec scenarios and counterexamples -/

/-! ## Settlement scenarios

Concrete fixtures for the literal spec scenarios.  Epoch seconds:
`2025-01-01T00:00:00Z = 1735689600`, `2025-01-01T00:05:00Z =
1735689900`, `2026-02-28T12:30:00Z = 1772281800`. -/

def c2_m1 : MovementRecord :=
  ⟨"m1", "btc-updown-5m-1735689200", some 1735689600, 0, 0, 10, 0, 0,
    "buy", "", 0, 0, false, 0⟩

def c2_m2 : MovementRecord :=
  ⟨"m2", "btc-updown-5m-1735689200", some 1735689900, 0, 0, 8, 0, 0,
    "buy", "", 0, 0, false, 0⟩

def c2_state : CopyState := ⟨[c2_m1, c2_m2]⟩

def c2_closed : List ClosedPosition :=
  [⟨"btc-updown-5m-1735689200", 1735689600, -4, 20⟩,
   ⟨"btc-updown-5m-1735689200", 1735689900, 2, 10⟩]

def c4_movement : MovementRecord :=
  ⟨"m", "eth-updown-5m", some 1772281800, 0, 0, 10, 0, 0,
    "buy", "", 0, 0, false, 0⟩

def c4_state : CopyState := ⟨[c4_movement]⟩

def c4_closed_old : List ClosedPosition := [⟨"eth-updown-5m", 1735689600, 2, 20⟩]

def c4_closed_zero : List ClosedPosition := [⟨"eth-updown-5m", 0, 2, 20⟩]

/-! ## Planner bounds -/

def c1_cfg : CopyConfig :=
  ⟨"0xabc", 1000, 5, 100, 1, 2, 2000, .balanced, false, false, false⟩

/-- Total number of `(timestamp, roi)` entries across all slug queues. -/
def totalEntries (qs : SlugQueues) : Nat :=
  (qs.map (fun kq => kq.2.length)).sum

def c3_state : CopyState :=
  ⟨[⟨"m1", "btc-updown-5m-12345678", some 100, 0, 0, 1, 0, 0, "buy", "", 0, 0,
      false, 0⟩,
    ⟨"m2", "btc-updown-5m", some 100, 0, 0, 1, 0, 0, "buy", "", 0, 0,
      false, 0⟩]⟩

def c3_closed : List ClosedPosition := [⟨"btc-updown-5m-12345678", 100, 1, 2⟩]

def c9_args : ConfigureArgs :=
  ⟨"0xabc", 1000, 5, 70, 1, 2, some 100, .balanced, false, false, false⟩

def c8_m : MovementRecord :=
  ⟨"m8", "btc-updown-1h", some 1735689600, 0, 0, 1, 0, 0, "buy", "", 0, 0,
    false, 0⟩

/-- A log whose single row carries the largest representable id,
`i64::MAX = 2^63 - 1` (reachable: rows are parsed from the
user-editable JSONL file with `id: i64`). -/
def c8_rows : List DbRow :=
  [⟨2 ^ 63 - 1, "a", "btc-updown-1h", some 1735689600, 0, 0, 1, 0, 0,
    "buy", "", 0, 0, false, 0⟩]

/-! ## Lemmas about slug normalization -/

lemma rsplitOnceDash_eq : ∀ (l p sfx : List Char),
    rsplitOnceDash l = some (p, sfx) → l = p ++ '-' :: sfx := by
  intro l
  induction l with
  | nil => intro p sfx h; simp [rsplitOnceDash] at h
  | cons c rest ih =>
    intro p sfx h
    unfold rsplitOnceDash at h
    cases hr : rsplitOnceDash rest with
    | some pr =>
      obtain ⟨p', sfx'⟩ := pr
      rw [hr] at h
      simp only [Option.some.injEq, Prod.mk.injEq] at h
      obtain ⟨h1, h2⟩ := h
      have hrest := ih p' sfx' hr
      rw [← h1, ← h2, hrest]
      simp
    | none =>
      rw [hr] at h
      by_cases hc : c = '-'
      · rw [if_pos hc] at h
        simp only [Option.some.injEq, Prod.mk.injEq] at h
        rw [← h.1, ← h.2, hc]
        simp
      · rw [if_neg hc] at h
        exact absurd h (by simp)

/-- `normalize_market_slug` fixes exactly the slugs without a strippable
final dash-segment. -/
lemma normalize_eq_self_iff (t : String) :
    normalize_market_slug t = t ↔ hasEpochSuffix t = false := by
  unfold normalize_market_slug hasEpochSuffix
  cases hr : rsplitOnceDash t.data with
  | none => simp
  | some pr =>
    obtain ⟨p, sfx⟩ := pr
    show (if 8 ≤ sfx.length ∧ sfx.all Char.isDigit = true then String.mk p else t) = t ↔
      decide (8 ≤ sfx.length ∧ sfx.all Char.isDigit = true) = false
    by_cases hc : 8 ≤ sfx.length ∧ sfx.all Char.isDigit = true
    · rw [if_pos hc, decide_eq_true hc]
      constructor
      · intro hmk
        exfalso
        have hdata : p = t.data := congrArg String.data hmk
        have hl : t.data = p ++ '-' :: sfx := rsplitOnceDash_eq t.data p sfx hr
        rw [← hdata] at hl
        have := congrArg List.length hl
        simp at this
      · intro hfalse
        exact absurd hfalse (by simp)
    · rw [if_neg hc, decide_eq_false hc]
      simp

/-- C5 counterexample: slug normalization is NOT idempotent on every
string.  `"a-12345678-87654321"` first strips the 8-digit segment
`87654321`, yielding `"a-12345678"`, which itself ends in an 8-digit
dash-segment and is stripped again to `"a"` by a second application. -/
theorem C5_normalize_not_idempotent_counterexample :
    normalize_market_slug (normalize_market_slug "a-12345678-87654321") ≠
      normalize_market_slug "a-12345678-87654321" := by decide

/-- C5 (amended): `normalize_market_slug` is idempotent at `s` exactly
when its normalized form does not itself end in a dash-segment of at
least 8 ASCII digits; ordinary market slugs with a single trailing
round-boundary epoch satisfy this. -/
theorem C5_normalize_idempotent_amended (s : String) :
    normalize_market_slug (normalize_market_slug s) = normalize_market_slug s ↔
      hasEpochSuffix (normalize_market_slug s) = false :=
  normalize_eq_self_iff (normalize_market_slug s)

/-- C7 counterexample: the claim quantifies over every `copied_value`
and states that the copy is rejected iff `max_net = 0.886·copied_value
≤ 0`.  At `copied_value = 0` the formula gives `max_net = 0 ≤ 0`
(rejected per the claim), but `trading_fee_impact_for_movement` returns
`None` for `copied_value ≤ 0`, so the monitor's fee branch does not
reject. -/
theorem C7_fee_filter_counterexample :
    fee_filter_rejects "eth-updown-5m-1772281500" 0 = false ∧
      (0 : ℚ) * (1 - 1/10) - 2 * (0 * (7/1000)) ≤ 0 := by
  constructor
  · decide
  · norm_num

/-- On a fast-fee market with positive copied value, the fee impact is
`Some` with the closed-form fields. -/
lemma trading_fee_impact_eq (market : String) (v : ℚ)
    (hfast : is_fast_market_with_fee market = true) (hv : 0 < v) :
    trading_fee_impact_for_movement market v =
      some ⟨70, v * (7/1000), v * (7/1000) * 2, v * (9/10),
        v * (9/10) - v * (7/1000) * 2⟩ := by
  unfold trading_fee_impact_for_movement
  rw [if_neg (by push_neg; exact ⟨by simp [hfast], hv⟩)]
  simp only [FAST_MARKET_FEE_BPS, BPS_DENOMINATOR, Option.some.injEq,
    TradingFeeImpact.mk.injEq]
  refine ⟨?_, ?_, ?_, ?_, ?_⟩ <;> push_cast <;> ring

/-- C7 (amended): for every fast-fee market and every `copied_value > 0`
the fee filter computes `entry = copied_value * 70/10000`,
`round_trip = 2*entry`, `max_gross = copied_value * (1 − 0.1)`,
`max_net = max_gross − round_trip`, and the copy is rejected by the fee
branch iff `max_net ≤ 0`; in particular for `copied_value = 10` it
yields `entry = 0.07`, `round_trip = 0.14`, `max_gross = 9`,
`max_net = 8.86` and the copy is accepted. -/
theorem C7_fee_filter_amended (market : String) (v : ℚ)
    (hfast : is_fast_market_with_fee market = true) (hv : 0 < v) :
    trading_fee_impact_for_movement market v =
      some ⟨70, v * (7/1000), v * (7/1000) * 2, v * (9/10),
        v * (9/10) - v * (7/1000) * 2⟩ ∧
    (fee_filter_rejects market v = true ↔ v * (9/10) - v * (7/1000) * 2 ≤ 0) ∧
    trading_fee_impact_for_movement "eth-updown-5m-1772281500" 10 =
      some ⟨70, 7/100, 7/50, 9, 443/50⟩ ∧
    fee_filter_rejects "eth-updown-5m-1772281500" 10 = false := by
  have himpact := trading_fee_impact_eq market v hfast hv
  have h10 := trading_fee_impact_eq "eth-updown-5m-1772281500" 10 (by decide)
    (by norm_num)
  refine ⟨himpact, ?_, ?_, ?_⟩
  · unfold fee_filter_rejects
    rw [himpact]
    simp [decide_eq_true_eq]
  · rw [h10]
    norm_num
  · unfold fee_filter_rejects
    rw [h10]
    simp only [decide_eq_false_iff_not, not_le]
    norm_num

/-- C7 witness: the amended theorem applied at the fast market
`"eth-updown-5m-1772281500"` and `copied_value = 10`. -/
theorem C7_fee_filter_amended_witness :
    is_fast_market_with_fee "eth-updown-5m-1772281500" = true ∧ (0:ℚ) < 10 ∧
      fee_filter_rejects "eth-updown-5m-1772281500" 10 = false :=
  ⟨by decide, by norm_num,
    (C7_fee_filter_amended "eth-updown-5m-1772281500" 10 (by decide)
      (by norm_num)).2.2.2⟩

/-- C10: for every market and every positive `copied_value` the monitor's
fee branch never rejects: on fast-fee markets the computed
`max_net_profit_usd` equals `copied_value * 0.886`, which is strictly
positive, and on other markets the fee impact is `None`. -/
theorem C10_fee_rejection_unreachable (market : String) (v : ℚ) (hv : 0 < v) :
    fee_filter_rejects market v = false ∧
    (is_fast_market_with_fee market = true →
      ∃ i, trading_fee_impact_for_movement market v = some i ∧
        i.max_net_profit_usd = v * (443/500) ∧ 0 < i.max_net_profit_usd) := by
  by_cases hfast : is_fast_market_with_fee market = true
  · have himpact := trading_fee_impact_eq market v hfast hv
    have hnet : v * (9/10) - v * (7/1000) * 2 = v * (443/500) := by ring
    have hpos : 0 < v * (443/500) := by positivity
    constructor
    · unfold fee_filter_rejects
      rw [himpact]
      simp only [decide_eq_false_iff_not, not_le]
      rw [hnet]
      exact hpos
    · intro _
      exact ⟨_, himpact, by simpa using hnet, by simpa [hnet] using hpos⟩
  · have hnone : trading_fee_impact_for_movement market v = none := by
      unfold trading_fee_impact_for_movement
      rw [if_pos (Or.inl (by simpa using hfast))]
    constructor
    · unfold fee_filter_rejects
      rw [hnone]
    · intro h
      exact absurd h hfast

/-- C10 witness: the unreachability theorem applied at the fast market
`"eth-updown-5m-1772281500"` and `copied_value = 10`. -/
theorem C10_fee_rejection_unreachable_witness :
    (0:ℚ) < 10 ∧ fee_filter_rejects "eth-updown-5m-1772281500" 10 = false :=
  ⟨by norm_num,
    (C10_fee_rejection_unreachable "eth-updown-5m-1772281500" 10 (by norm_num)).1⟩

/-- C2: the literal settlement-FIFO scenario.  Movements m1
(2025-01-01T00:00:00Z, copied 10) and m2 (2025-01-01T00:05:00Z,
copied 8) on the same slug; closed positions (ts 1735689600,
realized −4, bought 20) and (ts 1735689900, realized 2, bought 10).
One matcher run settles both, attributing the closures in FIFO order of
closed-position timestamp: m1.pnl = 10·(−4/20) = −2 and
m2.pnl = 8·(2/10) = 1.6. -/
theorem C2_settlement_fifo :
    ((settle_open_movements_from_closed_positions c2_state c2_closed).1.movements.map
        (fun m => (m.movement_id, m.settled, m.pnl)) =
      [("m1", true, -2), ("m2", true, 8/5)]) ∧
    ((settle_open_movements_from_closed_positions c2_state c2_closed).2.map
        (fun m => m.movement_id) = ["m1", "m2"]) := by
  constructor <;>
    norm_num [settle_open_movements_from_closed_positions, build_slug_queues,
      enqueue_closed, pushEntry, run_settle, try_settle_movement, pop_from_key,
      pop_eligible_roi, getQueue, setQueue, movement_timestamp_epoch_seconds,
      normalize_market_slug, rsplitOnceDash, c2_state, c2_closed, c2_m1, c2_m2,
      List.insertionSort, List.orderedInsert]

/-- C4: a queue entry popped for a movement never has
`0 < timestamp < movement_timestamp` (such entries are discarded while
popping), while a zero-timestamp entry is eligible for any movement.
Concretely, the closure at epoch 1735689600 does not settle the
movement created 2026-02-28T12:30:00Z, and the timestamp-0 closure with
`realized_pnl = 2`, `total_bought = 20` settles the `copied_value = 10`
movement at `pnl = 10·(2/20) = 1`. -/
theorem C4_eligibility_gate :
    (∀ (movement_ts : Int) (q q' : List (Int × ℚ)) (ts : Int) (roi : ℚ),
      pop_eligible_roi movement_ts q = (some (ts, roi), q') →
        ¬(0 < ts ∧ ts < movement_ts)) ∧
    (settle_open_movements_from_closed_positions c4_state c4_closed_old).2 = [] ∧
    ((settle_open_movements_from_closed_positions c4_state c4_closed_zero).2.map
        (fun m => (m.settled, m.pnl)) = [(true, 1)]) := by
  refine ⟨?_, ?_, ?_⟩
  · intro movement_ts q
    induction q with
    | nil => intro q' ts roi h; simp [pop_eligible_roi] at h
    | cons hd tl ih =>
      intro q' ts roi h
      obtain ⟨a, b⟩ := hd
      unfold pop_eligible_roi at h
      by_cases hc : 0 < a ∧ a < movement_ts
      · rw [if_pos hc] at h
        exact ih q' ts roi h
      · rw [if_neg hc] at h
        simp only [Prod.mk.injEq, Option.some.injEq] at h
        obtain ⟨⟨ha, -⟩, -⟩ := h
        rw [← ha]
        exact hc
  · simp +decide [settle_open_movements_from_closed_positions, build_slug_queues,
      enqueue_closed, pushEntry, run_settle, try_settle_movement, pop_from_key,
      pop_eligible_roi, getQueue, setQueue, movement_timestamp_epoch_seconds,
      normalize_market_slug, rsplitOnceDash, c4_state, c4_movement,
      c4_closed_old, List.insertionSort, List.orderedInsert]
  · simp +decide [settle_open_movements_from_closed_positions, build_slug_queues,
      enqueue_closed, pushEntry, run_settle, try_settle_movement, pop_from_key,
      pop_eligible_roi, getQueue, setQueue, movement_timestamp_epoch_seconds,
      normalize_market_slug, rsplitOnceDash, c4_state, c4_movement,
      c4_closed_zero, List.insertionSort, List.orderedInsert]
    norm_num

/-- C4 witness: the pop-eligibility conjunct applied to the concrete
queue `[(12, 1/2)]` and movement timestamp `10`: the popped entry
`(12, 1/2)` indeed does not satisfy `0 < 12 ∧ 12 < 10`. -/
theorem C4_eligibility_gate_witness : ¬((0:Int) < 12 ∧ (12:Int) < 10) :=
  C4_eligibility_gate.1 10 [((12:Int), (1:ℚ)/2)] [] 12 (1/2) rfl

/-- C1 counterexample: with a valid config (allocated 1000, max_trade 5%,
max_total 100%, min_copy 1) and a *negative* leader movement value −10
at `leader_positions_value = 1000 > 0`, the planner returns
`proportional_size = −10` but `capped_size = 0` (forced by the
below-minimum reason), so `capped_size ≤ proportional_size` fails. -/
theorem C1_planner_counterexample :
    compute_plan c1_cfg ⟨[]⟩ 1000 (-10) =
      .ok ⟨-10, 0, 1000, "below minimum copy threshold"⟩ ∧
    ¬((0:ℚ) ≤ -10) := by
  constructor
  · norm_num [compute_plan, max_trade_of, max_total_exposure_of,
      available_exposure_of, used_exposure_of, c1_cfg]
  · norm_num

/-- C1 (amended): for every valid config (positive allocated funds,
positive `max_trade_pct`, non-negative `min_copy_usd`), every state, and
inputs with `leader_positions_value > 0` and *non-negative*
`leader_movement_value`, the planner's result satisfies
`0 ≤ capped_size ≤ min(max_trade, available_exposure)` and
`capped_size ≤ proportional_size`. -/
theorem C1_planner_bounds (cfg : CopyConfig) (state : CopyState)
    (lpv lmv : ℚ) (hlpv : 0 < lpv) (halloc : 0 < cfg.allocated_funds)
    (hmt : 0 < cfg.max_trade_pct) (hmin : 0 ≤ cfg.min_copy_usd)
    (hlmv : 0 ≤ lmv) :
    ∃ r : PlanResult, compute_plan cfg state lpv lmv = .ok r ∧
      0 ≤ r.capped_size ∧
      r.capped_size ≤ min (max_trade_of cfg) (available_exposure_of cfg state) ∧
      r.capped_size ≤ r.proportional_size := by
  have hprop : 0 ≤ lmv * (cfg.allocated_funds / lpv) :=
    mul_nonneg hlmv (div_nonneg halloc.le hlpv.le)
  have hmt0 : 0 ≤ max_trade_of cfg :=
    mul_nonneg halloc.le (div_nonneg hmt.le (by norm_num))
  have havail : 0 ≤ available_exposure_of cfg state := le_max_right _ _
  unfold compute_plan
  rw [if_neg (not_le.mpr hlpv)]
  set prop := lmv * (cfg.allocated_funds / lpv) with hp
  set capped := min (min prop (max_trade_of cfg)) (available_exposure_of cfg state)
    with hcap
  by_cases hbm : capped < cfg.min_copy_usd
  · refine ⟨_, rfl, ?_⟩
    rw [if_pos hbm]
    simp only [reduceIte]
    exact ⟨le_refl 0, le_min hmt0 havail, hprop⟩
  · refine ⟨_, rfl, ?_⟩
    rw [if_neg hbm]
    have hreason :
        (if available_exposure_of cfg state ≤ 0 then "no exposure available"
         else if max_trade_of cfg < prop then "capped by max_trade_pct"
         else if available_exposure_of cfg state < prop then
           "capped by max_total_exposure_pct"
         else "ok") ≠ "below minimum copy threshold" := by
      split_ifs <;> decide
    rw [if_neg hreason]
    refine ⟨le_trans hmin (not_lt.mp hbm), ?_, ?_⟩
    · exact le_min (le_trans (min_le_left _ _) (min_le_right _ _))
        (min_le_right _ _)
    · exact le_trans (min_le_left _ _) (min_le_left _ _)

/-- C1 witness: the amended bounds at the concrete config `c1_cfg`,
empty state, `leader_positions_value = 1000`,
`leader_movement_value = 200`. -/
theorem C1_planner_bounds_witness :
    (0:ℚ) < 1000 ∧ (0:ℚ) < c1_cfg.allocated_funds ∧
    (0:ℚ) < c1_cfg.max_trade_pct ∧ (0:ℚ) ≤ c1_cfg.min_copy_usd ∧
    (0:ℚ) ≤ 200 ∧
    ∃ r : PlanResult, compute_plan c1_cfg ⟨[]⟩ 1000 200 = .ok r ∧
      0 ≤ r.capped_size ∧
      r.capped_size ≤ min (max_trade_of c1_cfg) (available_exposure_of c1_cfg ⟨[]⟩) ∧
      r.capped_size ≤ r.proportional_size :=
  ⟨by norm_num, by norm_num [c1_cfg], by norm_num [c1_cfg], by norm_num [c1_cfg],
    by norm_num,
    C1_planner_bounds c1_cfg ⟨[]⟩ 1000 200 (by norm_num) (by norm_num [c1_cfg])
      (by norm_num [c1_cfg]) (by norm_num [c1_cfg]) (by norm_num)⟩

/-! ## Attribution counting for the settlement matcher -/

lemma totalEntries_pushEntry (qs : SlugQueues) (k : String) (e : Int × ℚ) :
    totalEntries (pushEntry qs k e) = totalEntries qs + 1 := by
  induction qs with
  | nil => simp [pushEntry, totalEntries]
  | cons hd rest ih =>
    obtain ⟨k', q⟩ := hd
    unfold pushEntry
    by_cases hk : k' = k
    · rw [if_pos hk]
      simp only [totalEntries, List.map_cons, List.sum_cons, List.length_append,
        List.length_singleton]
      omega
    · rw [if_neg hk]
      simp only [totalEntries, List.map_cons, List.sum_cons] at ih ⊢
      omega

lemma enqueue_closed_skip (qs : SlugQueues) (c : ClosedPosition)
    (h : c.total_bought ≤ 0) : enqueue_closed qs c = qs := by
  unfold enqueue_closed
  rw [if_pos h]

lemma totalEntries_enqueue_le (qs : SlugQueues) (c : ClosedPosition) :
    totalEntries (enqueue_closed qs c) ≤ totalEntries qs + 2 := by
  unfold enqueue_closed
  by_cases h : c.total_bought ≤ 0
  · rw [if_pos h]
    omega
  · rw [if_neg h]
    by_cases hn : normalize_market_slug c.slug ≠ c.slug
    · rw [if_pos hn]
      rw [totalEntries_pushEntry, totalEntries_pushEntry]
    · rw [if_neg hn]
      rw [totalEntries_pushEntry]
      omega

lemma totalEntries_foldl_enqueue (l : List ClosedPosition) :
    ∀ qs : SlugQueues, totalEntries (l.foldl enqueue_closed qs) ≤
      totalEntries qs +
        2 * (l.filter (fun c => decide (0 < c.total_bought))).length := by
  induction l with
  | nil => intro qs; simp
  | cons c rest ih =>
    intro qs
    rw [List.foldl_cons]
    by_cases h : c.total_bought ≤ 0
    · have hfilter : (c :: rest).filter (fun c => decide (0 < c.total_bought)) =
          rest.filter (fun c => decide (0 < c.total_bought)) := by
        rw [List.filter_cons_of_neg]
        simpa using h
      rw [hfilter, enqueue_closed_skip qs c h]
      exact ih qs
    · have hfilter : (c :: rest).filter (fun c => decide (0 < c.total_bought)) =
          c :: rest.filter (fun c => decide (0 < c.total_bought)) := by
        rw [List.filter_cons_of_pos]
        simpa using lt_of_not_le h
      rw [hfilter]
      calc totalEntries (rest.foldl enqueue_closed (enqueue_closed qs c)) ≤
          totalEntries (enqueue_closed qs c) +
            2 * (rest.filter (fun c => decide (0 < c.total_bought))).length :=
            ih _
        _ ≤ totalEntries qs + 2 +
            2 * (rest.filter (fun c => decide (0 < c.total_bought))).length := by
            have := totalEntries_enqueue_le qs c
            omega
        _ = totalEntries qs +
            2 * (c :: rest.filter (fun c => decide (0 < c.total_bought))).length := by
            simp [List.length_cons]
            ring

lemma totalEntries_build (closed : List ClosedPosition) :
    totalEntries (build_slug_queues closed) ≤
      2 * (closed.filter (fun c => decide (0 < c.total_bought))).length := by
  unfold build_slug_queues
  have hperm :=
    (List.perm_insertionSort (fun a b : ClosedPosition => a.timestamp ≤ b.timestamp)
      closed).filter (fun c => decide (0 < c.total_bought))
  have hlen := hperm.length_eq
  have hfold := totalEntries_foldl_enqueue
    (closed.insertionSort (fun a b => a.timestamp ≤ b.timestamp)) []
  have h0 : totalEntries ([] : SlugQueues) = 0 := rfl
  rw [h0] at hfold
  omega

lemma pop_eligible_roi_length (movement_ts : Int) :
    ∀ (q q' : List (Int × ℚ)) (r : Option (Int × ℚ)),
      pop_eligible_roi movement_ts q = (r, q') →
      q'.length ≤ q.length ∧ (r.isSome = true → q'.length < q.length) := by
  intro q
  induction q with
  | nil =>
    intro q' r h
    simp only [pop_eligible_roi, Prod.mk.injEq] at h
    obtain ⟨hr, hq⟩ := h
    subst hq
    exact ⟨le_refl 0, fun hs => by rw [← hr] at hs; simp at hs⟩
  | cons hd tl ih =>
    intro q' r h
    obtain ⟨a, b⟩ := hd
    unfold pop_eligible_roi at h
    by_cases hc : 0 < a ∧ a < movement_ts
    · rw [if_pos hc] at h
      have := ih q' r h
      constructor
      · exact le_trans this.1 (by simp)
      · intro hs
        exact lt_of_le_of_lt this.1 (by simp)
    · rw [if_neg hc] at h
      simp only [Prod.mk.injEq] at h
      obtain ⟨-, hq⟩ := h
      subst hq
      simp

lemma totalEntries_setQueue (k : String) (q' : List (Int × ℚ)) :
    ∀ (qs : SlugQueues) (q : List (Int × ℚ)), getQueue qs k = some q →
      totalEntries (setQueue qs k q') + q.length = totalEntries qs + q'.length := by
  intro qs
  induction qs with
  | nil => intro q h; simp [getQueue] at h
  | cons hd rest ih =>
    intro q h
    obtain ⟨k0, q0⟩ := hd
    unfold getQueue at h
    unfold setQueue
    by_cases hk : k0 = k
    · rw [if_pos hk] at h ⊢
      simp only [Option.some.injEq] at h
      subst h
      simp only [totalEntries, List.map_cons, List.sum_cons]
      omega
    · rw [if_neg hk] at h ⊢
      have := ih q h
      simp only [totalEntries, List.map_cons, List.sum_cons] at this ⊢
      omega

lemma totalEntries_pop_from_key (qs : SlugQueues) (k : String) (movement_ts : Int)
    (r : Option (Int × ℚ)) (qs' : SlugQueues)
    (h : pop_from_key qs k movement_ts = (r, qs')) :
    totalEntries qs' ≤ totalEntries qs ∧
    (r.isSome = true → totalEntries qs' < totalEntries qs) := by
  unfold pop_from_key at h
  cases hget : getQueue qs k with
  | none =>
    rw [hget] at h
    simp only [Prod.mk.injEq] at h
    obtain ⟨hr, hq⟩ := h
    subst hq
    exact ⟨le_refl _, fun hs => by rw [← hr] at hs; simp at hs⟩
  | some q =>
    simp only [hget] at h
    rcases hpe : pop_eligible_roi movement_ts q with ⟨r0, q0⟩
    simp only [hpe, Prod.mk.injEq] at h
    obtain ⟨hr, hq⟩ := h
    have hlen := pop_eligible_roi_length movement_ts q q0 r0 hpe
    have hset := totalEntries_setQueue k q0 qs q hget
    subst hr
    rw [← hq]
    constructor
    · omega
    · intro hsome
      have := hlen.2 hsome
      omega

lemma totalEntries_try_settle (qs : SlugQueues) (m : MovementRecord)
    (qs' : SlugQueues) (m' : MovementRecord) (b : Bool)
    (h : try_settle_movement qs m = (qs', m', b)) :
    totalEntries qs' ≤ totalEntries qs ∧
    (b = true → totalEntries qs' < totalEntries qs) := by
  unfold try_settle_movement at h
  by_cases hs : m.settled
  · rw [if_pos hs] at h
    simp only [Prod.mk.injEq] at h
    obtain ⟨hq, -, hb⟩ := h
    subst hq
    exact ⟨le_refl _, fun ht => absurd (hb ▸ ht) (by simp)⟩
  · rw [if_neg hs] at h
    cases hts : movement_timestamp_epoch_seconds m.timestamp with
    | none =>
      simp only [hts, Prod.mk.injEq] at h
      obtain ⟨hq, -, hb⟩ := h
      subst hq
      exact ⟨le_refl _, fun ht => absurd (hb ▸ ht) (by simp)⟩
    | some movement_ts =>
      simp only [hts] at h
      rcases h1 : pop_from_key qs m.market movement_ts with ⟨r1, qs1⟩
      have hk1 := totalEntries_pop_from_key qs m.market movement_ts r1 qs1 h1
      simp only [h1] at h
      cases r1 with
      | some p =>
        obtain ⟨ts, roi⟩ := p
        simp only [Prod.mk.injEq] at h
        obtain ⟨hq, -, -⟩ := h
        subst hq
        exact ⟨hk1.1, fun _ => hk1.2 rfl⟩
      | none =>
        rcases h2 : pop_from_key qs1 (normalize_market_slug m.market) movement_ts
          with ⟨r2, qs2⟩
        have hk2 := totalEntries_pop_from_key qs1
          (normalize_market_slug m.market) movement_ts r2 qs2 h2
        simp only [h2] at h
        cases r2 with
        | some p =>
          obtain ⟨ts, roi⟩ := p
          simp only [Prod.mk.injEq] at h
          obtain ⟨hq, -, -⟩ := h
          subst hq
          exact ⟨le_trans hk2.1 hk1.1, fun _ => lt_of_lt_of_le (hk2.2 rfl) hk1.1⟩
        | none =>
          simp only [Prod.mk.injEq] at h
          obtain ⟨hq, -, hb⟩ := h
          subst hq
          exact ⟨le_trans hk2.1 hk1.1,
            fun ht => absurd (hb ▸ ht) (by simp)⟩

lemma run_settle_count : ∀ (ms : List MovementRecord) (qs : SlugQueues),
    (run_settle qs ms).2.length ≤ totalEntries qs := by
  intro ms
  induction ms with
  | nil => intro qs; simp [run_settle]
  | cons m rest ih =>
    intro qs
    unfold run_settle
    rcases hts : try_settle_movement qs m with ⟨qs', m', b⟩
    have hk := totalEntries_try_settle qs m qs' m' b hts
    simp only [hts]
    have hout := ih qs'
    rcases hrun : run_settle qs' rest with ⟨ms', out⟩
    simp only [hrun] at hout
    simp only [hrun]
    cases b with
    | false =>
      simp only [Bool.false_eq_true, if_false]
      exact le_trans hout hk.1
    | true =>
      have hlt := hk.2 rfl
      simp only [if_true, List.length_cons]
      omega

/-- C3 counterexample: one closed position (slug
`btc-updown-5m-12345678`, `total_bought = 2 > 0`) is enqueued under both
its raw slug and its normalized slug `btc-updown-5m`, and one matcher
run settles TWO movements from it — one on each slug.  For
`s = "btc-updown-5m"` the number of movements on slug `s` settled in the
run is 1, but the number of closed positions on slug `s` with
`total_bought > 0` is 0, refuting the claimed per-slug inequality. -/
theorem C3_per_slug_counterexample :
    ¬(((settle_open_movements_from_closed_positions c3_state c3_closed).2.filter
          (fun m => m.market == "btc-updown-5m")).length ≤
      ((c3_closed.filter
          (fun c => c.slug == "btc-updown-5m" && decide (0 < c.total_bought)))).length)
    := by
  simp +decide [settle_open_movements_from_closed_positions, build_slug_queues,
    enqueue_closed, pushEntry, run_settle, try_settle_movement, pop_from_key,
    pop_eligible_roi, getQueue, setQueue, movement_timestamp_epoch_seconds,
    normalize_market_slug, rsplitOnceDash, c3_state, c3_closed,
    List.insertionSort, List.orderedInsert]

/-- C3 (amended): in one run of the settlement matcher the number of
movements settled is at most TWICE the number of closed positions with
`total_bought > 0`: each such closed position enqueues its ROI under at
most two slug keys (raw and normalized), and each queue entry attributes
to at most one movement per run. -/
theorem C3_attribution_bound (state : CopyState)
    (closed_positions : List ClosedPosition) :
    (settle_open_movements_from_closed_positions state closed_positions).2.length ≤
      2 * (closed_positions.filter (fun c => decide (0 < c.total_bought))).length := by
  unfold settle_open_movements_from_closed_positions
  have h1 := run_settle_count state.movements (build_slug_queues closed_positions)
  have h2 := totalEntries_build closed_positions
  rcases hrun : run_settle (build_slug_queues closed_positions) state.movements
    with ⟨ms, out⟩
  simp only [hrun] at h1
  simp only [hrun]
  omega

/-! ## Liquidity-probe lemmas -/

lemma sumNotional_nonneg (asks : List BookLevel)
    (hlv : ∀ l ∈ asks, 0 ≤ l.price ∧ 0 ≤ l.size) : 0 ≤ sumNotional asks := by
  unfold sumNotional
  apply List.sum_nonneg
  intro x hx
  obtain ⟨l, hl, rfl⟩ := List.mem_map.1 hx
  exact mul_nonneg (hlv l hl).2 (hlv l hl).1

lemma buyWalk_exhausted (asks : List BookLevel) (fu fs : ℚ) :
    buyWalk asks 0 fu fs = (0, fu, fs) := by
  cases asks with
  | nil => rfl
  | cons a rest =>
    unfold buyWalk
    rw [if_pos (le_refl (0:ℚ))]

lemma buyWalk_insufficient (asks : List BookLevel) :
    ∀ (r fu fs : ℚ), (∀ l ∈ asks, 0 ≤ l.price ∧ 0 ≤ l.size) → 0 < r →
      sumNotional asks < r →
      (buyWalk asks r fu fs).1 = r - sumNotional asks := by
  induction asks with
  | nil =>
    intro r fu fs _ hr _
    simp [buyWalk, sumNotional]
  | cons a rest ih =>
    intro r fu fs hlv hr hsum
    have ha := hlv a (List.mem_cons_self a rest)
    have hrest : ∀ l ∈ rest, 0 ≤ l.price ∧ 0 ≤ l.size :=
      fun l hl => hlv l (List.mem_cons_of_mem a hl)
    have hsplit : sumNotional (a :: rest) = a.size * a.price + sumNotional rest := by
      simp [sumNotional]
    have hln : 0 ≤ a.size * a.price := mul_nonneg ha.2 ha.1
    have hrest0 : 0 ≤ sumNotional rest := sumNotional_nonneg rest hrest
    have hlt : a.size * a.price < r := by
      rw [hsplit] at hsum
      linarith
    unfold buyWalk
    rw [if_neg (not_le.mpr hr)]
    simp only []
    rw [if_neg (not_le.mpr hlt)]
    rw [ih (r - a.size * a.price) _ _ hrest (by linarith) (by rw [hsplit] at hsum; linarith)]
    rw [hsplit]
    ring

lemma buyWalk_sufficient (asks : List BookLevel) :
    ∀ (r fu fs : ℚ), (∀ l ∈ asks, 0 ≤ l.price ∧ 0 ≤ l.size) → 0 < r →
      r ≤ sumNotional asks →
      (buyWalk asks r fu fs).1 = 0 ∧ (buyWalk asks r fu fs).2.1 = fu + r ∧
        fs < (buyWalk asks r fu fs).2.2 := by
  induction asks with
  | nil =>
    intro r fu fs _ hr hsum
    simp only [sumNotional, List.map_nil, List.sum_nil] at hsum
    linarith
  | cons a rest ih =>
    intro r fu fs hlv hr hsum
    have ha := hlv a (List.mem_cons_self a rest)
    have hrest : ∀ l ∈ rest, 0 ≤ l.price ∧ 0 ≤ l.size :=
      fun l hl => hlv l (List.mem_cons_of_mem a hl)
    have hsplit : sumNotional (a :: rest) = a.size * a.price + sumNotional rest := by
      simp [sumNotional]
    unfold buyWalk
    rw [if_neg (not_le.mpr hr)]
    simp only []
    by_cases hc : r ≤ a.size * a.price
    · rw [if_pos hc]
      have hpp : 0 < a.price := by
        rcases lt_or_eq_of_le ha.1 with h | h
        · exact h
        · exfalso
          rw [← h] at hc
          simp only [mul_zero] at hc
          linarith
      rw [if_pos hpp]
      have hzero : r - r = 0 := by ring
      rw [hzero, buyWalk_exhausted]
      refine ⟨rfl, rfl, ?_⟩
      have : 0 < r / a.price := div_pos hr hpp
      linarith
    · rw [if_neg hc]
      push_neg at hc
      have hr' : 0 < r - a.size * a.price := by linarith
      have hsum' : r - a.size * a.price ≤ sumNotional rest := by
        rw [hsplit] at hsum
        linarith
      have hfs' : fs ≤ (if 0 < a.price then fs + a.size * a.price / a.price else fs) := by
        split_ifs with hp
        · have : 0 ≤ a.size * a.price / a.price :=
            div_nonneg (mul_nonneg ha.2 ha.1) hp.le
          linarith
        · exact le_refl fs
      obtain ⟨h1, h2, h3⟩ := ih (r - a.size * a.price) (fu + a.size * a.price)
        (if 0 < a.price then fs + a.size * a.price / a.price else fs)
        hrest hr' hsum'
      refine ⟨h1, ?_, lt_of_le_of_lt hfs' h3⟩
      rw [h2]
      ring

/-- C6 counterexample: at `copied_value_usd = 0` and the empty ask list
the total ask notional (0) is sufficient to cover 0, yet the probe
returns `None` (because no shares were filled), refuting the claimed
"None exactly when insufficient". -/
theorem C6_liquidity_probe_counterexample :
    estimate_simulated_copy_price_buy [] 0 = none ∧
      ¬(sumNotional [] < 0) := by
  constructor
  · rfl
  · simp [sumNotional]

/-- C6 (amended): for `copied_value_usd > 0` and an order book whose ask
levels have non-negative prices and sizes, the buy-side probe returns
`None` exactly when the total ask notional is insufficient
(`Σ size·price < copied_value_usd`); otherwise it returns
`Some (filled_usdc / filled_shares)` where the walk fills exactly
`copied_value_usd` of notional, so the price is
`copied_value_usd / filled_shares` with `filled_shares > 0` produced by
the best-to-worst walk. -/
theorem C6_liquidity_probe (asks : List BookLevel) (cv : ℚ) (hcv : 0 < cv)
    (hlv : ∀ l ∈ asks, 0 ≤ l.price ∧ 0 ≤ l.size) :
    (estimate_simulated_copy_price_buy asks cv = none ↔ sumNotional asks < cv) ∧
    (cv ≤ sumNotional asks →
      ∃ shares : ℚ, 0 < shares ∧ shares = (buyWalk asks cv 0 0).2.2 ∧
        estimate_simulated_copy_price_buy asks cv = some (cv / shares)) := by
  have hmain : cv ≤ sumNotional asks →
      ∃ shares : ℚ, 0 < shares ∧ shares = (buyWalk asks cv 0 0).2.2 ∧
        estimate_simulated_copy_price_buy asks cv = some (cv / shares) := by
    intro hsum
    obtain ⟨h1, h2, h3⟩ := buyWalk_sufficient asks cv 0 0 hlv hcv hsum
    refine ⟨(buyWalk asks cv 0 0).2.2, h3, rfl, ?_⟩
    unfold estimate_simulated_copy_price_buy
    rcases hw : buyWalk asks cv 0 0 with ⟨r0, fu0, fs0⟩
    rw [hw] at h1 h2 h3
    simp only at h1 h2 h3
    simp only [hw]
    rw [if_neg (by push_neg; exact ⟨by rw [h1], h3⟩)]
    rw [h2]
    norm_num
  constructor
  · constructor
    · intro hnone
      by_contra hge
      push_neg at hge
      obtain ⟨shares, -, -, hsome⟩ := hmain hge
      rw [hsome] at hnone
      exact absurd hnone (by simp)
    · intro hsum
      have hrem := buyWalk_insufficient asks cv 0 0 hlv hcv hsum
      unfold estimate_simulated_copy_price_buy
      rcases hw : buyWalk asks cv 0 0 with ⟨r0, fu0, fs0⟩
      rw [hw] at hrem
      simp only at hrem
      simp only [hw]
      rw [if_pos (Or.inl (by rw [hrem]; linarith))]
  · exact hmain

/-- C6 witness: the amended theorem at the one-level book
`[(price 1/2, size 10)]` and `copied_value = 3`: the notional 5 covers
3, and the probe returns the fill price. -/
theorem C6_liquidity_probe_witness :
    ((0:ℚ) < 3) ∧
    (estimate_simulated_copy_price_buy [⟨1/2, 10⟩] 3 = none ↔
      sumNotional [⟨1/2, 10⟩] < 3) :=
  ⟨by norm_num,
    (C6_liquidity_probe [⟨1/2, 10⟩] 3 (by norm_num)
      (by intro l hl; simp only [List.mem_singleton] at hl; subst hl
          constructor <;> norm_num)).1⟩

/-! ## Store-append lemmas -/

lemma i64_wrap_eq_self (n : Int) (hlo : -(2 ^ 63) ≤ n) (hhi : n < 2 ^ 63) :
    i64_wrap n = n := by
  unfold i64_wrap
  have h1 : (0:Int) ≤ n + 2 ^ 63 := by omega
  have h2 : n + 2 ^ 63 < 2 ^ 64 := by omega
  rw [Int.emod_eq_of_lt h1 h2]
  omega

lemma id_lt_next_db_id : ∀ rows : List DbRow,
    rows.Pairwise (fun a b => a.id < b.id) →
    (∀ r ∈ rows, -(2 ^ 63) ≤ r.id ∧ r.id < 2 ^ 63 - 1) →
    ∀ r ∈ rows, r.id < next_db_id rows := by
  intro rows
  induction rows with
  | nil => intro _ _ r hr; cases hr
  | cons a t ih =>
    intro h hrange r hr
    cases t with
    | nil =>
      simp only [List.mem_singleton] at hr
      subst hr
      have ha := hrange r (List.mem_singleton.mpr rfl)
      simp only [next_db_id, List.getLast?_singleton]
      rw [i64_wrap_eq_self (r.id + 1) (by omega) (by omega)]
      omega
    | cons b t' =>
      have hnext : next_db_id (a :: b :: t') = next_db_id (b :: t') := by
        simp only [next_db_id, List.getLast?_cons_cons]
      rw [hnext]
      have hpair := List.pairwise_cons.1 h
      have hrange' : ∀ r ∈ b :: t', -(2 ^ 63) ≤ r.id ∧ r.id < 2 ^ 63 - 1 :=
        fun r hr => hrange r (List.mem_cons_of_mem a hr)
      rcases List.mem_cons.1 hr with rfl | hr'
      · have hab : r.id < b.id := hpair.1 b (List.mem_cons_self b t')
        have hbn : b.id < next_db_id (b :: t') :=
          ih hpair.2 hrange' b (List.mem_cons_self b t')
        omega
      · exact ih hpair.2 hrange' r hr'

/-- C8 counterexample: on a log whose last row has `id = i64::MAX =
2^63 − 1` (representable in the JSONL file), appending a fresh movement
wraps the `i64` addition `last id + 1` to `i64::MIN = −2^63`, so the new
row's id is NOT strictly greater than every existing id and the
strictly-increasing invariant is broken (a debug build panics on the
same addition instead). -/
theorem C8_append_overflow_counterexample :
    next_db_id c8_rows = -(2 ^ 63) ∧
    (append_db_movement c8_rows c8_m).map (fun r => r.id) =
      [2 ^ 63 - 1, -(2 ^ 63)] ∧
    ¬((2 ^ 63 - 1 : Int) < -(2 ^ 63)) := by
  refine ⟨?_, ?_, by omega⟩
  · norm_num [next_db_id, c8_rows, i64_wrap, List.getLast?]
  · simp +decide [append_db_movement, c8_rows, c8_m, next_db_id,
      db_row_of_movement, i64_wrap, List.getLast?]

/-- C8 (amended): on a log read from the per-mode store whose row ids
are `i64` values with every id strictly below `i64::MAX` (so the
`last id + 1` addition cannot overflow), appending preserves the
invariants "at most one row per `movement_id`" and "row ids strictly
increasing": when a row with the movement's id already exists the log
is unchanged, otherwise exactly one row is appended, stamped
`next_db_id` (last id + 1, or 1 on an empty log), which is strictly
greater than every existing id. -/
theorem C8_append_db_movement (rows : List DbRow) (m : MovementRecord)
    (hid : rows.Pairwise (fun a b => a.id < b.id))
    (hmid : rows.Pairwise (fun a b => a.movement_id ≠ b.movement_id))
    (hrange : ∀ r ∈ rows, -(2 ^ 63) ≤ r.id ∧ r.id < 2 ^ 63 - 1) :
    (append_db_movement rows m).Pairwise (fun a b => a.id < b.id) ∧
    (append_db_movement rows m).Pairwise (fun a b => a.movement_id ≠ b.movement_id) ∧
    (rows.any (fun r => r.movement_id == m.movement_id) = true →
      append_db_movement rows m = rows) ∧
    (rows.any (fun r => r.movement_id == m.movement_id) = false →
      append_db_movement rows m =
        rows ++ [db_row_of_movement (next_db_id rows) m] ∧
      ∀ r ∈ rows, r.id < next_db_id rows) := by
  by_cases hdup : rows.any (fun r => r.movement_id == m.movement_id) = true
  · unfold append_db_movement
    rw [if_pos hdup]
    exact ⟨hid, hmid, fun _ => rfl, fun hfalse => absurd hdup (by rw [hfalse]; simp)⟩
  · have hfalse : rows.any (fun r => r.movement_id == m.movement_id) = false :=
      Bool.eq_false_iff.mpr hdup
    have hnotmem : ∀ r ∈ rows, r.movement_id ≠ m.movement_id := by
      intro r hr
      have := List.any_eq_false.mp hfalse r hr
      simpa using this
    have hlt := id_lt_next_db_id rows hid hrange
    unfold append_db_movement
    rw [if_neg hdup]
    refine ⟨?_, ?_, fun htrue => absurd htrue hdup, fun _ => ⟨rfl, hlt⟩⟩
    · rw [List.pairwise_append]
      refine ⟨hid, List.pairwise_singleton _ _, ?_⟩
      intro r hr x hx
      simp only [List.mem_singleton] at hx
      subst hx
      exact hlt r hr
    · rw [List.pairwise_append]
      refine ⟨hmid, List.pairwise_singleton _ _, ?_⟩
      intro r hr x hx
      simp only [List.mem_singleton] at hx
      subst hx
      exact hnotmem r hr

/-- C8 witness: the amended append theorem applied to the empty log
(both invariants and the i64-range bound hold trivially) and the
fixture movement `c8_m`: the log gains exactly one row with id
`next_db_id [] = 1`. -/
theorem C8_append_db_movement_witness :
    (([] : List DbRow).Pairwise (fun a b => a.id < b.id)) ∧
    (([] : List DbRow).Pairwise (fun a b => a.movement_id ≠ b.movement_id)) ∧
    (∀ r ∈ ([] : List DbRow), -(2 ^ 63) ≤ r.id ∧ r.id < 2 ^ 63 - 1) ∧
    (([] : List DbRow).any (fun r => r.movement_id == c8_m.movement_id) = false →
      append_db_movement [] c8_m =
        [] ++ [db_row_of_movement (next_db_id []) c8_m] ∧
      ∀ r ∈ ([] : List DbRow), r.id < next_db_id []) :=
  ⟨List.Pairwise.nil, List.Pairwise.nil, fun r hr => absurd hr (List.not_mem_nil r),
    (C8_append_db_movement [] c8_m List.Pairwise.nil List.Pairwise.nil
      (fun r hr => absurd hr (List.not_mem_nil r))).2.2.2⟩

/-! ## Configure / poll-interval behaviour -/

/-- C9 counterexample: a configure request with positive
`poll_interval_ms = 100` below the 500 ms normal-mode floor (all other
fields valid) does NOT succeed with the value raised to the floor —
`validate_config` rejects it. -/
theorem C9_configure_counterexample :
    configure_config c9_args = .error "poll-interval-ms too low for selected mode" := by
  norm_num [configure_config, validate_config, min_poll_ms, c9_args, Except.bind, bind]

/-- C9 (amended): for an otherwise-valid configure request, an explicit
`poll_interval_ms ≥ floor` succeeds and is stored unchanged (equal to
`max(requested, floor)`); an explicit value below the floor is an error,
not raised; an omitted `poll_interval_ms` defaults to
`poll_interval_secs·1000` (u64-saturating) raised to the floor, without
error.  The floor is 500 ms normally and 50 ms in realtime/simulation
mode. -/
theorem C9_configure_poll_floor (a : ConfigureArgs)
    (h1 : 0 < a.allocated_funds)
    (h2 : 0 < a.max_trade_pct) (h2' : a.max_trade_pct ≤ 100)
    (h3 : 0 < a.max_total_exposure_pct) (h3' : a.max_total_exposure_pct ≤ 100)
    (h4 : 0 ≤ a.min_copy_usd)
    (h5 : ¬(a.realtime_mode = true ∧ a.simulation_mode = true)) :
    (∀ ms, a.poll_interval_ms = some ms →
      (min_poll_ms a.realtime_mode a.simulation_mode ≤ ms →
        ∃ c, configure_config a = .ok c ∧ c.poll_interval_ms = ms) ∧
      (ms < min_poll_ms a.realtime_mode a.simulation_mode →
        configure_config a = .error "poll-interval-ms too low for selected mode")) ∧
    (a.poll_interval_ms = none →
      ∃ c, configure_config a = .ok c ∧
        c.poll_interval_ms =
          max (u64_saturating_mul_1000 a.poll_interval_secs)
            (min_poll_ms a.realtime_mode a.simulation_mode)) := by
  have hpre : ∀ res : Except String Unit,
      (match a.poll_interval_ms with
        | some ms =>
          if ms < min_poll_ms a.realtime_mode a.simulation_mode then
            (.error "poll-interval-ms too low for selected mode" : Except String Unit)
          else .ok ()
        | none => .ok ()) = res → validate_config a = res := by
    intro res hres
    unfold validate_config
    rw [if_neg (not_le.mpr h1), if_neg (by push_neg; exact ⟨h2, h2'⟩),
      if_neg (by push_neg; exact ⟨h3, h3'⟩), if_neg (not_lt.mpr h4),
      if_neg (by simpa using h5)]
    exact hres
  constructor
  · intro ms hms
    constructor
    · intro hge
      have hval : validate_config a = .ok () := by
        apply hpre
        rw [hms]
        simp only
        rw [if_neg (not_lt.mpr hge)]
      refine ⟨built_config a, ?_, ?_⟩
      · unfold configure_config
        rw [hval]
        rfl
      · show normalize_poll_ms
          (a.poll_interval_ms.getD (u64_saturating_mul_1000 a.poll_interval_secs))
          a.realtime_mode a.simulation_mode = ms
        rw [hms, Option.getD_some]
        unfold normalize_poll_ms
        exact Nat.max_eq_left hge
    · intro hlt
      have hval : validate_config a =
          .error "poll-interval-ms too low for selected mode" := by
        apply hpre
        rw [hms]
        simp only
        rw [if_pos hlt]
      unfold configure_config
      rw [hval]
      rfl
  · intro hnone
    have hval : validate_config a = .ok () := by
      apply hpre
      rw [hnone]
    refine ⟨built_config a, ?_, ?_⟩
    · unfold configure_config
      rw [hval]
      rfl
    · show normalize_poll_ms
        (a.poll_interval_ms.getD (u64_saturating_mul_1000 a.poll_interval_secs))
        a.realtime_mode a.simulation_mode =
        max (u64_saturating_mul_1000 a.poll_interval_secs)
          (min_poll_ms a.realtime_mode a.simulation_mode)
      rw [hnone, Option.getD_none]
      rfl

/-- C9 witness: the amended theorem at a valid request with explicit
`poll_interval_ms = 600` in normal mode (floor 500): configuration
succeeds and stores exactly 600. -/
theorem C9_configure_poll_floor_witness :
    ((0:ℚ) < 1000) ∧
    (∃ c, configure_config { c9_args with poll_interval_ms := some 600 } = .ok c ∧
      c.poll_interval_ms = 600) := by
  refine ⟨by norm_num, ?_⟩
  have h := (C9_configure_poll_floor { c9_args with poll_interval_ms := some 600 }
    (by norm_num [c9_args]) (by norm_num [c9_args]) (by norm_num [c9_args])
    (by norm_num [c9_args]) (by norm_num [c9_args]) (by norm_num [c9_args])
    (by simp [c9_args])).1 600 rfl
  exact h.1 (by norm_num [c9_args, min_poll_ms])

end Polystation
